/-
Verification of the protocol-framing and parsing layer of
`CMUTweetTagger.py` (ark-tweet-nlp-python).

The wrapper's pure core is modelled shallowly over `List Char`:

* Python `str`/`bytes` values on the pipe are modelled as `List Char`
  (the only stream operations used — `strip`, `split`, `count`,
  `replace`, searching for a literal marker — act identically on the
  UTF-8 byte view and the decoded-character view for the ASCII
  metacharacters involved, so UTF-8 decoding is modelled as the
  identity; the actual byte encoding of outgoing data is modelled
  explicitly by `utf8Encode`).
* `bytes.strip()` / `str.strip()` are modelled with the six ASCII
  whitespace characters stripped by `bytes.strip` (Python's `str.strip`
  additionally strips rare Unicode whitespace, which no claim
  exercises).
* `pexpect`'s `expect('\r\n\r\n\r\n', timeout=30)` is modelled by
  `pexpectBefore`: it returns the characters before the first
  occurrence of the marker in the data the subprocess produced within
  the wait bound, and `none` when no marker occurs in that data —
  which covers both the timeout and any read failure (the code's bare
  `except:` treats them alike).
* Python's `float(...)` is modelled by `pyFloat`; the parsed value is
  kept as an exact decimal rational (numerator/denominator), since no
  claim depends on binary rounding.  Underscore digit separators
  (Python ≥ 3.6) are omitted.
-/
import Mathlib

set_option maxRecDepth 10000

namespace ArkTweet

/-- Characters of a string literal, used to write concrete Python strings. -/
def str (s : String) : List Char := s.data

/-- The six ASCII whitespace characters stripped by Python's `bytes.strip`. -/
def isPySpace (c : Char) : Bool :=
  c == ' ' || c == '\t' || c == '\n' || c == '\r' || c == '\x0b' || c == '\x0c'

/-- `'\r\n'`: the line separator used by `_parse_raw_result`. -/
def CRLF : List Char := ['\r', '\n']

/-- `'\r\n\r\n'`: the block separator used by `batch` (line 121). -/
def SEP4 : List Char := ['\r', '\n', '\r', '\n']

/-- `'\r\n\r\n\r\n'`: the completion marker awaited by `batch` (line 109). -/
def MARKER : List Char := ['\r', '\n', '\r', '\n', '\r', '\n']

/-- The diagnostic banner trimmed off responses (line 117). -/
def BANNER : List Char := str "Detected text input format"

/-- Python `s.lstrip()` (ASCII whitespace). -/
def pyStripStart (s : List Char) : List Char := s.dropWhile isPySpace

/-- Python `s.rstrip()` (ASCII whitespace). -/
def pyStripEnd (s : List Char) : List Char :=
  (s.reverse.dropWhile isPySpace).reverse

/-- Python `s.strip()` (ASCII whitespace, cf. the header comment). -/
def pyStrip (s : List Char) : List Char := pyStripEnd (pyStripStart s)

/-- Worker for `pySplit`.  The second argument counts separator
characters that still have to be skipped after a match was found; the
recursion is structural in the scanned list so that concrete instances
reduce by `rfl`/`decide`. -/
def pySplitGo (sep : List Char) : List Char → Nat → List (List Char)
  | [], _ => [[]]
  | _ :: rest, Nat.succ k => pySplitGo sep rest k
  | c :: rest, 0 =>
    if sep.isPrefixOf (c :: rest) && !sep.isEmpty then
      [] :: pySplitGo sep rest (sep.length - 1)
    else
      match pySplitGo sep rest 0 with
      | [] => [[c]]
      | p :: ps => (c :: p) :: ps

/-- Python `s.split(sep)` for a non-empty literal separator: cut at the
leftmost, non-overlapping occurrences of `sep`. -/
def pySplit (sep s : List Char) : List (List Char) := pySplitGo sep s 0

/-- Python `sep.join(pieces)`. -/
def pyJoin (sep : List Char) : List (List Char) → List Char
  | [] => []
  | [x] => x
  | x :: y :: rest => x ++ sep ++ pyJoin sep (y :: rest)

/-- Python `s.replace(old, new)` for non-empty `old`
(equals `new.join(s.split(old))`). -/
def pyReplace (s old new : List Char) : List Char := pyJoin new (pySplit old s)

/-- Line 97: `tw.replace('\n', ' ').replace('\r', ' ')`. -/
def pyClean (tw : List Char) : List Char :=
  pyReplace (pyReplace tw ['\n'] [' ']) ['\r'] [' ']

/-- The character-wise effect of line 97's two replacements
(used only in theorem statements, for comparison with `pyClean`). -/
def cleanChar (c : Char) : Char :=
  if c = '\n' then ' ' else if c = '\r' then ' ' else c

/-- UTF-8 encoding of one character (1–4 bytes). -/
def utf8Char (c : Char) : List Nat :=
  let n := c.toNat
  if n < 0x80 then [n]
  else if n < 0x800 then [0xC0 + n / 64, 0x80 + n % 64]
  else if n < 0x10000 then
    [0xE0 + n / 4096, 0x80 + n / 64 % 64, 0x80 + n % 64]
  else
    [0xF0 + n / 262144, 0x80 + n / 4096 % 64, 0x80 + n / 64 % 64, 0x80 + n % 64]

/-- Python `s.encode('utf-8')`, as the list of byte values. -/
def utf8Encode (s : List Char) : List Nat := (s.map utf8Char).flatten

/-- Line 98: `message = "\n".join(tweets_cleaned)`. -/
def batchMessage (tweets : List (List Char)) : List Char :=
  pyJoin (str "\n") (tweets.map pyClean)

/-- Line 105: the bytes written to the subprocess,
`(message + '\n\n').encode('utf-8')`. -/
def batchWrite (tweets : List (List Char)) : List Nat :=
  utf8Encode (batchMessage tweets ++ str "\n\n")

/-- The value of a successful Python `float(...)` call.  A finite
result is kept as the exact decimal rational `num / den` (`den > 0`);
binary floating-point rounding is abstracted away, cf. header. -/
inductive PyFloatVal where
  | finite (num : Int) (den : Nat)
  | inf (neg : Bool)
  | nan
deriving DecidableEq, Repr

/-- Value of a list of ASCII digits. -/
def digitsVal (ds : List Char) : Nat :=
  ds.foldl (fun a c => 10 * a + (c.toNat - 48)) 0

/-- Apply an exponent part `ds` (sign `neg`) to an unsigned mantissa
`num / den`; fails unless `ds` is a non-empty run of digits. -/
def expApply (num : Nat) (den : Nat) (neg : Bool) (ds : List Char) :
    Option (Nat × Nat) :=
  if ds.isEmpty || ds.any (fun c => !c.isDigit) then none
  else if neg then some (num, den * 10 ^ digitsVal ds)
  else some (num * 10 ^ digitsVal ds, den)

/-- Parse the optional exponent suffix `r` of a float literal whose
mantissa is `num / den`. -/
def pyFloatExp (num : Nat) (den : Nat) (r : List Char) : Option (Nat × Nat) :=
  match r with
  | [] => some (num, den)
  | e :: rest =>
    if e == 'e' || e == 'E' then
      match rest with
      | '+' :: ds => expApply num den false ds
      | '-' :: ds => expApply num den true ds
      | ds => expApply num den false ds
    else none

/-- Parse an unsigned numeric float literal (`D+[.D*] | .D+`, optional
exponent), returning the exact value as `num / den`. -/
def pyFloatNum (t : List Char) : Option (Nat × Nat) :=
  let ip := t.takeWhile Char.isDigit
  let r1 := t.dropWhile Char.isDigit
  match r1 with
  | '.' :: r2 =>
    let fp := r2.takeWhile Char.isDigit
    let r3 := r2.dropWhile Char.isDigit
    if ip.isEmpty && fp.isEmpty then none
    else pyFloatExp (digitsVal ip * 10 ^ fp.length + digitsVal fp)
      (10 ^ fp.length) r3
  | _ => if ip.isEmpty then none else pyFloatExp (digitsVal ip) 1 r1

/-- Parse the sign-free part of a float literal
(`inf`/`infinity`/`nan` case-insensitively, else numeric). -/
def pyFloatSigned (neg : Bool) (r : List Char) : Option PyFloatVal :=
  let low := r.map Char.toLower
  if low = str "inf" || low = str "infinity" then some (.inf neg)
  else if low = str "nan" then some .nan
  else
    match pyFloatNum r with
    | some (num, den) =>
      some (.finite (if neg then -(num : Int) else (num : Int)) den)
    | none => none

/-- Python `float(s)`: `some` the parsed value, `none` when `float`
raises `ValueError`. -/
def pyFloat (s : List Char) : Option PyFloatVal :=
  match pyStrip s with
  | '+' :: r => pyFloatSigned false r
  | '-' :: r => pyFloatSigned true r
  | r => pyFloatSigned false r

/-- One record yielded by `_parse_raw_result`:
`(tokens, tags, confidence)` (line 89). -/
abbrev TaggedToken := List Char × List Char × PyFloatVal

instance instDecEqExcept {ε α : Type} [DecidableEq ε] [DecidableEq α] :
    DecidableEq (Except ε α) := fun x y =>
  match x, y with
  | Except.ok a, Except.ok b =>
    if h : a = b then isTrue (congrArg Except.ok h)
    else isFalse fun hh => h (by injection hh)
  | Except.ok _, Except.error _ => isFalse fun hh => Except.noConfusion hh
  | Except.error _, Except.ok _ => isFalse fun hh => Except.noConfusion hh
  | Except.error e, Except.error f =>
    if h : e = f then isTrue (congrArg Except.error h)
    else isFalse fun hh => h (by injection hh)

/-- The treatment of one line of a response block by
`_parse_raw_result` (lines 81–89): `ok (some r)` when the line yields
the record `r`, `ok none` when it is skipped, `error` when
`float(parts[2])` raises `ValueError`. -/
def parseLine (line : List Char) : Except String (Option TaggedToken) :=
  let t := pyStrip line
  if 0 < t.length then
    if t.count '\t' = 2 then
      match pyFloat ((pySplit ['\t'] t).getD 2 []) with
      | some conf =>
        Except.ok (some ((pySplit ['\t'] t).getD 0 [],
          (pySplit ['\t'] t).getD 1 [], conf))
      | none => Except.error "ValueError"
    else Except.ok none
  else Except.ok none

/-- Sequential collection of the records of a block's lines, as done by
`list(self._parse_raw_result(r))`: the first `ValueError` aborts the
whole block. -/
def parseLines : List (List Char) → Except String (List TaggedToken)
  | [] => Except.ok []
  | l :: ls =>
    match parseLine l with
    | Except.error e => Except.error e
    | Except.ok none => parseLines ls
    | Except.ok (some r) =>
      match parseLines ls with
      | Except.error e => Except.error e
      | Except.ok rs => Except.ok (r :: rs)

/-- `TweetTagger._parse_raw_result` (lines 76–89), consumed as a list:
split the block on `'\r\n'` and collect the per-line records. -/
def parse_raw_result (raw : List Char) : Except String (List TaggedToken) :=
  parseLines (pySplit CRLF raw)

/-- Line 123: `[ list(self._parse_raw_result(r)) for r in raw_results ]`,
left to right, the first `ValueError` propagating out of `batch`. -/
def parseBlocks : List (List Char) → Except String (List (List TaggedToken))
  | [] => Except.ok []
  | r :: rs =>
    match parse_raw_result r with
    | Except.error e => Except.error e
    | Except.ok ts =>
      match parseBlocks rs with
      | Except.error e => Except.error e
      | Except.ok tss => Except.ok (ts :: tss)

/-- The inner list `batch` would produce for one block; only used to
state results about runs in which no block raises. -/
def parsedBlock (b : List Char) : List TaggedToken :=
  match parse_raw_result b with
  | Except.ok ts => ts
  | Except.error _ => []

/-- `self.proc.expect(pat); self.proc.before`: the characters before the
first occurrence of `pat` in the received data, `none` when `pat` never
occurs in it (timeout / read failure, cf. header). -/
def pexpectBefore (pat : List Char) : List Char → Option (List Char)
  | [] => none
  | c :: rest =>
    if pat.isPrefixOf (c :: rest) then some []
    else (pexpectBefore pat rest).map (fun before => c :: before)

/-- Lines 115–117: strip the pre-marker bytes, decode, cut out the
banner, strip again. -/
def cleanedResponse (before : List Char) : List Char :=
  pyStrip (pyJoin [] (pySplit BANNER (pyStrip before)))

/-- The response side of `TweetTagger.batch` (lines 108–123), as a
function of the data `stream` the subprocess produced within the wait
bound: `ok []` on timeout/read failure, otherwise the per-block parse
of the cleaned pre-marker text; `error` models an uncaught
`ValueError` from `float`. -/
def batchResult (stream : List Char) : Except String (List (List TaggedToken)) :=
  match pexpectBefore MARKER stream with
  | none => Except.ok []
  | some before => parseBlocks (pySplit SEP4 (cleanedResponse before))

/-- `TweetTagger.batch` (lines 92–123): the bytes written to the
subprocess for `tweets`, and the result computed from the subprocess's
output `stream`. -/
def batch (tweets : List (List Char)) (stream : List Char) :
    List Nat × Except String (List (List TaggedToken)) :=
  (batchWrite tweets, batchResult stream)

/-- `(List.range (s.length + 1)).any …`: does `pat` occur in `s`? -/
def occursB (pat s : List Char) : Bool :=
  (List.range (s.length + 1)).any fun i => pat.isPrefixOf (s.drop i)

/-- First character, if any, is not ASCII whitespace. -/
def headOk (s : List Char) : Bool := s.head?.all fun c => !isPySpace c

/-- Last character, if any, is not ASCII whitespace. -/
def lastOk (s : List Char) : Bool := s.getLast?.all fun c => !isPySpace c

/-- A well-formed response block, as emitted by the engine for one
input: non-empty, free of the block separator and of the banner, and
not starting or ending in whitespace (conll blocks are `\r\n`-joined
`tokens\ttags\tconfidence` lines, which satisfy all of this). -/
def WFBlock (b : List Char) : Prop :=
  b ≠ [] ∧ occursB SEP4 b = false ∧ occursB BANNER b = false ∧
    headOk b = true ∧ lastOk b = true

instance (b : List Char) : Decidable (WFBlock b) := by
  unfold WFBlock; infer_instance

/-- The per-line record of §4.2 step 6 of the spec, stated in the
spec's own words: a non-empty trimmed line with exactly two tabs and a
parseable third field yields one `(tokens, tags, confidence)` record,
every other line yields nothing. -/
def specLineRecord (line : List Char) : Option TaggedToken :=
  let t := pyStrip line
  if t ≠ [] ∧ t.count '\t' = 2 then
    match pyFloat ((pySplit ['\t'] t).getD 2 []) with
    | some conf =>
      some ((pySplit ['\t'] t).getD 0 [], (pySplit ['\t'] t).getD 1 [], conf)
    | none => none
  else none

/-- The external process handle owned by a `TweetTagger`. -/
structure TaggerProc where
  alive : Bool
deriving DecidableEq, Repr

/-- `TweetTagger.kill` (lines 64–65): signal the process. -/
def kill (_p : TaggerProc) : TaggerProc := { alive := false }

/-- `TweetTagger.__exit__` (lines 72–73): ignores the exception triple
and calls `kill`. -/
def exitHandler (_excInfo : Option String) (p : TaggerProc) : TaggerProc :=
  kill p

/-- A `with TweetTagger(...) as t:` scope around a fallible body:
Python runs `__exit__` both on normal completion (no exception info)
and on an exception (with the exception info), and `__exit__`'s `None`
result lets the exception propagate. -/
def withTagger {α : Type} (p : TaggerProc) (body : TaggerProc → Except String α) :
    Except String α × TaggerProc :=
  match body p with
  | Except.ok a => (Except.ok a, exitHandler none p)
  | Except.error e => (Except.error e, exitHandler (some e) p)

/-! ### Basic facts about the string primitives -/

lemma isPre_iff {l₁ l₂ : List Char} : l₁.isPrefixOf l₂ = true ↔ l₁ <+: l₂ :=
  List.isPrefixOf_iff_prefix

lemma isPre_append_self (l t : List Char) : l.isPrefixOf (l ++ t) = true :=
  isPre_iff.mpr (List.prefix_append l t)

lemma isPre_nil_false {p : List Char} (hp : p ≠ []) :
    p.isPrefixOf ([] : List Char) = false := by
  cases p with
  | nil => exact absurd rfl hp
  | cons a as => rfl

lemma occursB_false_noOcc {pat s : List Char} (hp : pat ≠ [])
    (h : occursB pat s = false) : ∀ i, pat.isPrefixOf (s.drop i) = false := by
  intro i
  by_cases hi : i ≤ s.length
  · have hmem : i ∈ List.range (s.length + 1) := List.mem_range.mpr (by omega)
    have := List.any_eq_false.mp h i hmem
    exact Bool.not_eq_true _ ▸ (by simpa using this)
  · rw [List.drop_eq_nil_of_le (by omega)]
    exact isPre_nil_false hp

lemma headOk_spec {s : List Char} (h : headOk s = true) :
    ∀ c, s.head? = some c → isPySpace c = false := by
  intro c hc
  unfold headOk at h
  rw [hc] at h
  simpa using h

lemma lastOk_spec {s : List Char} (h : lastOk s = true) :
    ∀ c, s.getLast? = some c → isPySpace c = false := by
  intro c hc
  unfold lastOk at h
  rw [hc] at h
  simpa using h

lemma getLast?_drop_eq {l : List Char} {i : Nat} (h : i < l.length) :
    (l.drop i).getLast? = l.getLast? := by
  induction l generalizing i with
  | nil => simp at h
  | cons a as ih =>
    cases i with
    | zero => rfl
    | succ j =>
      have hj : j < as.length := by simpa using h
      rw [List.drop_succ_cons, ih hj]
      cases as with
      | nil => simp at hj
      | cons b bs => rw [List.getLast?_cons_cons]

lemma pref_of_append_long {p x t : List Char}
    (h : p.isPrefixOf (x ++ t) = true) (hl : p.length ≤ x.length) :
    p.isPrefixOf x = true :=
  isPre_iff.mpr
    (List.prefix_of_prefix_length_le (isPre_iff.mp h) (List.prefix_append x t) hl)

lemma append_pref_of_short {p x t : List Char}
    (h : p.isPrefixOf (x ++ t) = true) (hl : x.length ≤ p.length) : x <+: p :=
  List.prefix_of_prefix_length_le (List.prefix_append x t) (isPre_iff.mp h) hl

lemma next_char_mem {p x t : List Char} {c : Char}
    (h : p.isPrefixOf (x ++ c :: t) = true) (hl : x.length < p.length) : c ∈ p := by
  obtain ⟨r, hr⟩ := append_pref_of_short h (Nat.le_of_lt hl)
  have hrne : r ≠ [] := by
    intro he
    rw [he, List.append_nil] at hr
    rw [← hr] at hl
    exact Nat.lt_irrefl _ hl
  obtain ⟨t2, ht2⟩ := isPre_iff.mp h
  rw [← hr, List.append_assoc] at ht2
  have ht3 : r ++ t2 = c :: t := List.append_cancel_left ht2
  cases r with
  | nil => exact absurd rfl hrne
  | cons d r2 =>
    have hdc : d = c := by
      have := congrArg List.head? ht3
      simpa using this
    rw [← hr, hdc]
    exact List.mem_append_right x (List.mem_cons_self c r2)

/-- In `b ++ t`, no occurrence of `sep` can start strictly inside `b`
when `b` is free of `sep` and does not end with a character of `sep`
(a partial match hanging over the right edge of `b` would force `b`'s
last character into `sep`). -/
lemma noEarly_of_block {sep b : List Char} (t : List Char)
    (hno : ∀ i, sep.isPrefixOf (b.drop i) = false)
    (hlast : ∀ c, b.getLast? = some c → c ∉ sep) :
    ∀ i, i < b.length → sep.isPrefixOf ((b ++ t).drop i) = false := by
  intro i hi
  cases hB : sep.isPrefixOf ((b ++ t).drop i) with
  | false => rfl
  | true =>
    exfalso
    rw [List.drop_append_of_le_length (Nat.le_of_lt hi)] at hB
    have hdlen : (b.drop i).length = b.length - i := List.length_drop i b
    by_cases hl : sep.length ≤ (b.drop i).length
    · exact absurd (pref_of_append_long hB hl) (by rw [hno i]; simp)
    · have hxp : b.drop i <+: sep := append_pref_of_short hB (by omega)
      cases hg : (b.drop i).getLast? with
      | none =>
        have : b.drop i = [] := by
          cases hd : b.drop i with
          | nil => rfl
          | cons d ds => rw [hd] at hg; simp [List.getLast?] at hg
        rw [this] at hdlen
        simp at hdlen
        omega
      | some c =>
        have hcb : b.getLast? = some c := by rw [← getLast?_drop_eq hi, hg]
        have hmem : c ∈ sep :=
          hxp.sublist.subset (List.mem_of_getLast?_eq_some hg)
        exact hlast c hcb hmem

/-- Skipping exactly the remainder of a matched separator. -/
lemma pySplitGo_skip (sep : List Char) :
    ∀ x t, pySplitGo sep (x ++ t) x.length = pySplitGo sep t 0 := by
  intro x
  induction x with
  | nil => intro t; rfl
  | cons c x2 ih =>
    intro t
    show pySplitGo sep (x2 ++ t) x2.length = pySplitGo sep t 0
    exact ih t

lemma pySplitGo_nil (sep : List Char) (k : Nat) : pySplitGo sep [] k = [[]] := by
  cases k <;> rfl

lemma pySplitGo_succ (sep : List Char) (c : Char) (rest : List Char) (k : Nat) :
    pySplitGo sep (c :: rest) (k + 1) = pySplitGo sep rest k := rfl

lemma pySplitGo_zero (sep : List Char) (c : Char) (rest : List Char) :
    pySplitGo sep (c :: rest) 0 =
      if (sep.isPrefixOf (c :: rest) && !sep.isEmpty) = true then
        [] :: pySplitGo sep rest (sep.length - 1)
      else
        match pySplitGo sep rest 0 with
        | [] => [[c]]
        | p :: ps => (c :: p) :: ps := rfl

lemma pySplitGo_ne_nil (sep : List Char) : ∀ s k, pySplitGo sep s k ≠ [] := by
  intro s
  induction s with
  | nil => intro k; cases k <;> simp [pySplitGo]
  | cons c rest ih =>
    intro k
    cases k with
    | succ k2 => exact ih k2
    | zero =>
      show pySplitGo sep (c :: rest) 0 ≠ []
      unfold pySplitGo
      split
      · simp
      · split <;> simp

lemma pySplit_ne_nil (sep s : List Char) : pySplit sep s ≠ [] :=
  pySplitGo_ne_nil sep s 0

/-- The first piece produced by the splitter is a prefix of the input. -/
lemma pySplitGo_first_pref (sep : List Char) :
    ∀ s, ∃ p ps t, pySplitGo sep s 0 = p :: ps ∧ p ++ t = s := by
  intro s
  induction s with
  | nil => exact ⟨[], [], [], rfl, rfl⟩
  | cons c rest ih =>
    by_cases hc : (sep.isPrefixOf (c :: rest) && !sep.isEmpty) = true
    · refine ⟨[], pySplitGo sep rest (sep.length - 1), c :: rest, ?_, rfl⟩
      rw [pySplitGo_zero, if_pos hc]
    · obtain ⟨p, ps, t, hgo, hpt⟩ := ih
      refine ⟨c :: p, ps, t, ?_, by rw [List.cons_append, hpt]⟩
      rw [pySplitGo_zero, if_neg hc, hgo]

/-- No piece produced by a split contains an occurrence of the
separator (the Python `split` cuts at every leftmost match). -/
lemma pySplit_pieces_noOcc {sep : List Char} (hsep : sep ≠ []) :
    ∀ s k p, p ∈ pySplitGo sep s k → ∀ i, sep.isPrefixOf (p.drop i) = false := by
  intro s
  induction s with
  | nil =>
    intro k p hp i
    have hpnil : p = [] := by cases k <;> simpa [pySplitGo] using hp
    rw [hpnil, List.drop_nil]
    exact isPre_nil_false hsep
  | cons c rest ih =>
    intro k p hp i
    cases k with
    | succ k2 => exact ih k2 p hp i
    | zero =>
      by_cases hc : (sep.isPrefixOf (c :: rest) && !sep.isEmpty) = true
      · have hp2 : p ∈ ([] : List Char) :: pySplitGo sep rest (sep.length - 1) := by
          have heq : pySplitGo sep (c :: rest) 0
              = [] :: pySplitGo sep rest (sep.length - 1) := by
            rw [pySplitGo_zero, if_pos hc]
          rwa [heq] at hp
        rcases List.mem_cons.mp hp2 with h1 | h2
        · rw [h1, List.drop_nil]; exact isPre_nil_false hsep
        · exact ih _ p h2 i
      · cases hm : pySplitGo sep rest 0 with
        | nil => exact absurd hm (pySplitGo_ne_nil sep rest 0)
        | cons q qs =>
          have hp2 : p ∈ (c :: q) :: qs := by
            have heq : pySplitGo sep (c :: rest) 0 = (c :: q) :: qs := by
              rw [pySplitGo_zero, if_neg hc, hm]
            rwa [heq] at hp
          rcases List.mem_cons.mp hp2 with h1 | h2
          · subst h1
            cases i with
            | succ j =>
              have hq : q ∈ pySplitGo sep rest 0 := by
                rw [hm]; exact List.mem_cons_self q qs
              exact ih 0 q hq j
            | zero =>
              rw [List.drop_zero]
              cases hB : sep.isPrefixOf (c :: q) with
              | false => rfl
              | true =>
                exfalso
                obtain ⟨p0, ps0, t0, hgo0, hpt0⟩ := pySplitGo_first_pref sep rest
                rw [hm] at hgo0
                injection hgo0 with h5 h6
                rw [← h5] at hpt0
                have hpre : sep.isPrefixOf (c :: rest) = true := by
                  apply isPre_iff.mpr
                  calc sep <+: c :: q := isPre_iff.mp hB
                    _ <+: c :: rest := by
                      refine ⟨t0, ?_⟩
                      rw [List.cons_append, hpt0]
                have hEmpty : sep.isEmpty = false := by
                  cases sep with
                  | nil => exact absurd rfl hsep
                  | cons a as => rfl
                rw [hpre, hEmpty] at hc
                simp at hc
          · have hsub : p ∈ pySplitGo sep rest 0 := by
              rw [hm]; exact List.mem_cons_of_mem q h2
            exact ih 0 p hsub i

/-- A separator-free string is returned whole by `split`. -/
lemma pySplit_of_noOcc {sep : List Char} :
    ∀ s, (∀ i, sep.isPrefixOf (s.drop i) = false) → pySplit sep s = [s] := by
  intro s
  induction s with
  | nil => intro _; rfl
  | cons c rest ih =>
    intro h
    have h0 : sep.isPrefixOf (c :: rest) = false := by
      have := h 0; rwa [List.drop_zero] at this
    have hrest : pySplit sep rest = [rest] := by
      apply ih
      intro i
      have := h (i + 1)
      rwa [List.drop_succ_cons] at this
    show pySplitGo sep (c :: rest) 0 = [c :: rest]
    unfold pySplitGo
    rw [if_neg (by rw [h0]; simp)]
    rw [show pySplitGo sep rest 0 = [rest] from hrest]

/-- Splitting at a separator occurrence with nothing matching earlier. -/
lemma pySplit_append_sep {sep : List Char} (hsep : sep ≠ []) :
    ∀ a t, (∀ i, i < a.length → sep.isPrefixOf ((a ++ sep ++ t).drop i) = false) →
      pySplit sep (a ++ sep ++ t) = a :: pySplit sep t := by
  intro a
  induction a with
  | nil =>
    intro t _
    simp only [List.nil_append]
    cases sep with
    | nil => exact absurd rfl hsep
    | cons c sep2 =>
      show pySplitGo (c :: sep2) ((c :: sep2) ++ t) 0 = [] :: pySplitGo (c :: sep2) t 0
      rw [show (c :: sep2) ++ t = c :: (sep2 ++ t) from rfl, pySplitGo_zero]
      rw [if_pos (by
        rw [show c :: (sep2 ++ t) = (c :: sep2) ++ t from rfl, isPre_append_self]
        rfl)]
      have hlen : (c :: sep2).length - 1 = sep2.length := by simp
      rw [hlen, pySplitGo_skip (c :: sep2) sep2 t]
  | cons c a2 ih =>
    intro t h
    have h0 : sep.isPrefixOf ((c :: a2) ++ sep ++ t) = false := by
      have := h 0 (by simp)
      rwa [List.drop_zero] at this
    have hrec : pySplitGo sep (a2 ++ sep ++ t) 0 = a2 :: pySplitGo sep t 0 := by
      apply ih
      intro i hi
      have := h (i + 1) (by simpa using Nat.succ_lt_succ hi)
      rwa [show ((c :: a2) ++ sep ++ t) = c :: (a2 ++ sep ++ t) by simp,
        List.drop_succ_cons] at this
    show pySplitGo sep ((c :: a2) ++ sep ++ t) 0 = (c :: a2) :: pySplitGo sep t 0
    rw [show (c :: a2) ++ sep ++ t = c :: (a2 ++ sep ++ t) by simp]
    rw [pySplitGo_zero]
    rw [if_neg (by
      rw [show (c :: (a2 ++ sep ++ t)) = (c :: a2) ++ sep ++ t by simp, h0]
      simp)]
    rw [hrec]

/-- Splitting undoes joining for pieces free of the separator that do
not end in a character of the separator. -/
lemma pySplit_join_generic {sep : List Char} (hsep : sep ≠ []) :
    ∀ blocks, blocks ≠ [] →
      (∀ b ∈ blocks, (∀ i, sep.isPrefixOf (b.drop i) = false) ∧
        (∀ c, b.getLast? = some c → c ∉ sep)) →
      pySplit sep (pyJoin sep blocks) = blocks := by
  intro blocks
  induction blocks with
  | nil => intro h _; exact absurd rfl h
  | cons b bs ih =>
    intro _ h
    cases bs with
    | nil => exact pySplit_of_noOcc b (h b (List.mem_cons_self b [])).1
    | cons b2 rest =>
      have hb := h b (List.mem_cons_self b (b2 :: rest))
      have hJ : pyJoin sep (b :: b2 :: rest)
          = b ++ sep ++ pyJoin sep (b2 :: rest) := rfl
      rw [hJ]
      rw [pySplit_append_sep hsep b (pyJoin sep (b2 :: rest)) (by
        intro i hi
        have := noEarly_of_block (sep ++ pyJoin sep (b2 :: rest)) hb.1 hb.2 i hi
        rwa [← List.append_assoc] at this)]
      rw [ih (by simp) (fun x hx => h x (List.mem_cons_of_mem b hx))]

/-! ### Facts about `pyJoin` and `pyStrip` -/

lemma pyJoin_cons (sep x y : List Char) (rest : List (List Char)) :
    pyJoin sep (x :: y :: rest) = x ++ sep ++ pyJoin sep (y :: rest) := rfl

lemma pyJoin_pref (sep x : List Char) (ys : List (List Char)) :
    ∃ t, x ++ t = pyJoin sep (x :: ys) := by
  cases ys with
  | nil => exact ⟨[], List.append_nil x⟩
  | cons y rest =>
    refine ⟨sep ++ pyJoin sep (y :: rest), ?_⟩
    rw [pyJoin_cons, List.append_assoc]

lemma pyJoin_ne_nil (sep x : List Char) (ys : List (List Char)) (hx : x ≠ []) :
    pyJoin sep (x :: ys) ≠ [] := by
  obtain ⟨t, ht⟩ := pyJoin_pref sep x ys
  rw [← ht]
  cases x with
  | nil => exact absurd rfl hx
  | cons c x2 => simp

lemma headOk_pyJoin (sep x : List Char) (ys : List (List Char))
    (hx : x ≠ []) (h : headOk x = true) : headOk (pyJoin sep (x :: ys)) = true := by
  obtain ⟨t, ht⟩ := pyJoin_pref sep x ys
  rw [← ht]
  cases x with
  | nil => exact absurd rfl hx
  | cons c x2 =>
    have := headOk_spec h c rfl
    simp [headOk, this]

lemma lastOk_pyJoin (sep : List Char) :
    ∀ blocks, blocks ≠ [] → (∀ b ∈ blocks, b ≠ [] ∧ lastOk b = true) →
      lastOk (pyJoin sep blocks) = true := by
  intro blocks
  induction blocks with
  | nil => intro h _; exact absurd rfl h
  | cons b bs ih =>
    intro _ h
    cases bs with
    | nil => exact (h b (List.mem_cons_self b [])).2
    | cons b2 rest =>
      rw [pyJoin_cons]
      have hrec : lastOk (pyJoin sep (b2 :: rest)) = true :=
        ih (by simp) (fun x hx => h x (List.mem_cons_of_mem b hx))
      have hne : pyJoin sep (b2 :: rest) ≠ [] :=
        pyJoin_ne_nil sep b2 rest (h b2 (by simp)).1
      unfold lastOk at hrec ⊢
      rw [List.getLast?_append]
      cases hg : (pyJoin sep (b2 :: rest)).getLast? with
      | none =>
        exfalso
        apply hne
        cases hJ : pyJoin sep (b2 :: rest) with
        | nil => rfl
        | cons d ds => rw [hJ] at hg; simp [List.getLast?] at hg
      | some c =>
        rw [hg] at hrec
        simpa using hrec

lemma dropWhile_head_not (p : Char → Bool) :
    ∀ (l : List Char) c, (l.dropWhile p).head? = some c → p c = false := by
  intro l
  induction l with
  | nil => intro c hc; simp at hc
  | cons a as ih =>
    intro c hc
    by_cases hpa : p a
    · rw [List.dropWhile_cons_of_pos hpa] at hc
      exact ih c hc
    · rw [List.dropWhile_cons_of_neg hpa] at hc
      have : a = c := by simpa using hc
      rw [← this]
      simpa using hpa

lemma pyStrip_eq_self {s : List Char} (h1 : headOk s = true) (h2 : lastOk s = true) :
    pyStrip s = s := by
  unfold pyStrip pyStripStart pyStripEnd
  have hA : s.dropWhile isPySpace = s := by
    cases s with
    | nil => rfl
    | cons c s2 =>
      have hc : isPySpace c = false := headOk_spec h1 c rfl
      rw [List.dropWhile_cons_of_neg (by simp [hc])]
  rw [hA]
  have hB : s.reverse.dropWhile isPySpace = s.reverse := by
    cases hr : s.reverse with
    | nil => rfl
    | cons d r2 =>
      have hd : s.getLast? = some d := by
        rw [← List.head?_reverse, hr]; rfl
      have : isPySpace d = false := lastOk_spec h2 d hd
      rw [List.dropWhile_cons_of_neg (by simp [this])]
  rw [hB, List.reverse_reverse]

lemma headOk_pyStripStart (s : List Char) : headOk (pyStripStart s) = true := by
  unfold headOk pyStripStart
  cases hh : (s.dropWhile isPySpace).head? with
  | none => rfl
  | some c => simpa using dropWhile_head_not isPySpace s c hh

lemma lastOk_pyStripEnd (s : List Char) : lastOk (pyStripEnd s) = true := by
  unfold lastOk pyStripEnd
  rw [List.getLast?_reverse]
  cases hh : (s.reverse.dropWhile isPySpace).head? with
  | none => rfl
  | some c => simpa using dropWhile_head_not isPySpace s.reverse c hh

lemma headOk_pyStripEnd {s : List Char} (h : headOk s = true) :
    headOk (pyStripEnd s) = true := by
  have hpref : pyStripEnd s <+: s := by
    unfold pyStripEnd
    have hsuf : s.reverse.dropWhile isPySpace <:+ s.reverse :=
      List.dropWhile_suffix isPySpace
    have := List.reverse_prefix.mpr hsuf
    rwa [List.reverse_reverse] at this
  cases hse : pyStripEnd s with
  | nil => rfl
  | cons d r =>
    obtain ⟨t, ht⟩ := hpref
    rw [hse] at ht
    have hd : s.head? = some d := by
      rw [← ht]; rfl
    have := headOk_spec h d hd
    simp [headOk, this]

lemma pyStrip_idem (s : List Char) : pyStrip (pyStrip s) = pyStrip s :=
  pyStrip_eq_self (headOk_pyStripEnd (headOk_pyStripStart s)) (lastOk_pyStripEnd _)

/-! ### `pexpectBefore` -/

lemma pexpect_finds (pat : List Char) (hp : pat ≠ []) :
    ∀ a t, (∀ i, i < a.length → pat.isPrefixOf ((a ++ (pat ++ t)).drop i) = false) →
      pexpectBefore pat (a ++ (pat ++ t)) = some a := by
  intro a
  induction a with
  | nil =>
    intro t _
    simp only [List.nil_append]
    cases pat with
    | nil => exact absurd rfl hp
    | cons c p2 =>
      show pexpectBefore (c :: p2) ((c :: p2) ++ t) = some []
      rw [show (c :: p2) ++ t = c :: (p2 ++ t) from rfl]
      unfold pexpectBefore
      rw [if_pos (by
        rw [show c :: (p2 ++ t) = (c :: p2) ++ t from rfl]
        exact isPre_append_self (c :: p2) t)]
  | cons c a2 ih =>
    intro t h
    have h0 : pat.isPrefixOf ((c :: a2) ++ (pat ++ t)) = false := by
      have := h 0 (by simp)
      rwa [List.drop_zero] at this
    rw [show (c :: a2) ++ (pat ++ t) = c :: (a2 ++ (pat ++ t)) from rfl]
    unfold pexpectBefore
    rw [if_neg (by
      rw [show c :: (a2 ++ (pat ++ t)) = (c :: a2) ++ (pat ++ t) from rfl, h0]
      simp)]
    rw [ih t (by
      intro i hi
      have := h (i + 1) (by simpa using Nat.succ_lt_succ hi)
      rwa [show (c :: a2) ++ (pat ++ t) = c :: (a2 ++ (pat ++ t)) from rfl,
        List.drop_succ_cons] at this)]
    rfl

/-! ### Well-formed blocks -/

lemma pref_head {p q s : List Char} (h : (p ++ q).isPrefixOf s = true) :
    p.isPrefixOf s = true :=
  isPre_iff.mpr ((List.prefix_append p q).trans (isPre_iff.mp h))

lemma WF_noOcc_SEP4 {b : List Char} (h : WFBlock b) :
    ∀ i, SEP4.isPrefixOf (b.drop i) = false :=
  occursB_false_noOcc (by decide) h.2.1

lemma WF_noOcc_BANNER {b : List Char} (h : WFBlock b) :
    ∀ i, BANNER.isPrefixOf (b.drop i) = false :=
  occursB_false_noOcc (by decide) h.2.2.1

lemma WF_noOcc_MARKER {b : List Char} (h : WFBlock b) :
    ∀ i, MARKER.isPrefixOf (b.drop i) = false := by
  intro i
  cases hB : MARKER.isPrefixOf (b.drop i) with
  | false => rfl
  | true =>
    exfalso
    have h2 : SEP4.isPrefixOf (b.drop i) = true := by
      have hM : MARKER = SEP4 ++ CRLF := rfl
      rw [hM] at hB
      exact pref_head hB
    rw [WF_noOcc_SEP4 h i] at h2
    exact Bool.noConfusion h2

lemma WF_lastNot {b : List Char} (h : WFBlock b) {sepish : List Char}
    (hsp : ∀ x ∈ sepish, isPySpace x = true) :
    ∀ c, b.getLast? = some c → c ∉ sepish := by
  intro c hc hmem
  have h1 : isPySpace c = true := hsp c hmem
  rw [lastOk_spec h.2.2.2.2 c hc] at h1
  exact Bool.noConfusion h1

lemma WF_lastNot_SEP4 {b : List Char} (h : WFBlock b) :
    ∀ c, b.getLast? = some c → c ∉ SEP4 :=
  WF_lastNot h (by decide)

lemma WF_lastNot_MARKER {b : List Char} (h : WFBlock b) :
    ∀ c, b.getLast? = some c → c ∉ MARKER :=
  WF_lastNot h (by decide)

lemma pyJoin_head_char (sep : List Char) {b2 : List Char} (rest : List (List Char))
    (hne : b2 ≠ []) (hh : headOk b2 = true) :
    ∃ hb t2, pyJoin sep (b2 :: rest) = hb :: t2 ∧ isPySpace hb = false := by
  obtain ⟨t, ht⟩ := pyJoin_pref sep b2 rest
  cases b2 with
  | nil => exact absurd rfl hne
  | cons hb b3 =>
    refine ⟨hb, b3 ++ t, ?_, headOk_spec hh hb rfl⟩
    rw [← ht]
    rfl

/-- In the engine's output for a batch of well-formed blocks, the
completion marker occurs nowhere before the end of the joined blocks:
not inside a block, and not straddling a block separator. -/
lemma marker_noEarly :
    ∀ blocks, (∀ b ∈ blocks, WFBlock b) → ∀ tail i,
      i < (pyJoin SEP4 blocks).length →
      MARKER.isPrefixOf ((pyJoin SEP4 blocks ++ (MARKER ++ tail)).drop i) = false := by
  intro blocks
  induction blocks with
  | nil => intro _ tail i hi; simp [pyJoin] at hi
  | cons b bs ih =>
    intro hwf tail i hi
    have hwfb : WFBlock b := hwf b (List.mem_cons_self b bs)
    cases bs with
    | nil =>
      exact noEarly_of_block (MARKER ++ tail) (WF_noOcc_MARKER hwfb)
        (WF_lastNot_MARKER hwfb) i (by simpa [pyJoin] using hi)
    | cons b2 rest =>
      have hwfb2 : WFBlock b2 := hwf b2 (by simp)
      obtain ⟨hb, t2, hJ, hhb⟩ :=
        pyJoin_head_char SEP4 rest hwfb2.1 hwfb2.2.2.2.1
      have hRne : ('\r' == hb) = false := by
        cases hq : ('\r' == hb) with
        | false => rfl
        | true =>
          have := eq_of_beq hq
          rw [← this] at hhb
          exact absurd hhb (by decide)
      have hNne : ('\r' == '\n') = false := by decide
      rw [pyJoin_cons] at hi ⊢
      rcases Nat.lt_or_ge i b.length with h1 | h1
      · have := noEarly_of_block
          (SEP4 ++ (pyJoin SEP4 (b2 :: rest) ++ (MARKER ++ tail)))
          (WF_noOcc_MARKER hwfb) (WF_lastNot_MARKER hwfb) i h1
        rw [show b ++ (SEP4 ++ (pyJoin SEP4 (b2 :: rest) ++ (MARKER ++ tail)))
            = b ++ SEP4 ++ pyJoin SEP4 (b2 :: rest) ++ (MARKER ++ tail) by
          simp [List.append_assoc]] at this
        exact this
      · rcases Nat.lt_or_ge i (b.length + 4) with h2 | h2
        · -- the occurrence would have to start inside the separator
          set j := i - b.length with hjdef
          have hieq : i = b.length + j := by omega
          have hj4 : j < 4 := by omega
          rw [hieq,
            show b ++ SEP4 ++ pyJoin SEP4 (b2 :: rest) ++ (MARKER ++ tail)
              = b ++ (SEP4 ++ (pyJoin SEP4 (b2 :: rest) ++ (MARKER ++ tail))) by
                simp [List.append_assoc],
            List.drop_append, hJ]
          interval_cases j
          · show MARKER.isPrefixOf ('\r' :: '\n' :: '\r' :: '\n' ::
              (hb :: t2 ++ (MARKER ++ tail))) = false
            simp [MARKER, List.isPrefixOf, hRne]
          · show MARKER.isPrefixOf ('\n' :: '\r' :: '\n' ::
              (hb :: t2 ++ (MARKER ++ tail))) = false
            simp [MARKER, List.isPrefixOf, hNne]
          · show MARKER.isPrefixOf ('\r' :: '\n' ::
              (hb :: t2 ++ (MARKER ++ tail))) = false
            simp [MARKER, List.isPrefixOf, hRne]
          · show MARKER.isPrefixOf ('\n' ::
              (hb :: t2 ++ (MARKER ++ tail))) = false
            simp [MARKER, List.isPrefixOf, hNne]
        · -- the occurrence would be inside the remaining blocks: recurse
          set m := i - (b.length + 4) with hmdef
          have hieq : i = (b ++ SEP4).length + m := by
            simp [SEP4]
            omega
          have hm : m < (pyJoin SEP4 (b2 :: rest)).length := by
            have : (b ++ SEP4 ++ pyJoin SEP4 (b2 :: rest)).length
                = b.length + 4 + (pyJoin SEP4 (b2 :: rest)).length := by
              simp [SEP4]
              omega
            omega
          rw [hieq,
            show b ++ SEP4 ++ pyJoin SEP4 (b2 :: rest) ++ (MARKER ++ tail)
              = (b ++ SEP4) ++ (pyJoin SEP4 (b2 :: rest) ++ (MARKER ++ tail)) by
                simp [List.append_assoc],
            List.drop_append]
          exact ih (fun x hx => hwf x (List.mem_cons_of_mem b hx)) tail m hm

/-- The banner does not occur anywhere in a join of banner-free,
well-formed blocks (it contains no CR/LF, so it cannot straddle a
separator). -/
lemma banner_noOcc :
    ∀ blocks, (∀ b ∈ blocks, WFBlock b) → ∀ i,
      BANNER.isPrefixOf ((pyJoin SEP4 blocks).drop i) = false := by
  intro blocks
  induction blocks with
  | nil =>
    intro _ i
    show BANNER.isPrefixOf (([] : List Char).drop i) = false
    rw [List.drop_nil]
    exact isPre_nil_false (by decide)
  | cons b bs ih =>
    intro hwf i
    have hwfb : WFBlock b := hwf b (List.mem_cons_self b bs)
    cases bs with
    | nil => exact WF_noOcc_BANNER hwfb i
    | cons b2 rest =>
      have hDR : ('D' == '\r') = false := by decide
      have hDN : ('D' == '\n') = false := by decide
      rw [pyJoin_cons]
      rcases Nat.lt_or_ge i b.length with h1 | h1
      · cases hB : BANNER.isPrefixOf
            ((b ++ SEP4 ++ pyJoin SEP4 (b2 :: rest)).drop i) with
        | false => rfl
        | true =>
          exfalso
          rw [show b ++ SEP4 ++ pyJoin SEP4 (b2 :: rest)
              = b ++ ('\r' :: '\n' :: '\r' :: '\n' :: pyJoin SEP4 (b2 :: rest)) by
                simp [SEP4, List.append_assoc],
            List.drop_append_of_le_length (Nat.le_of_lt h1)] at hB
          by_cases hlen : BANNER.length ≤ (b.drop i).length
          · have := pref_of_append_long hB hlen
            rw [WF_noOcc_BANNER hwfb i] at this
            exact Bool.noConfusion this
          · have hmem : '\r' ∈ BANNER := next_char_mem hB (by omega)
            exact absurd hmem (by decide)
      · rcases Nat.lt_or_ge i (b.length + 4) with h2 | h2
        · set j := i - b.length with hjdef
          have hieq : i = b.length + j := by omega
          have hj4 : j < 4 := by omega
          rw [hieq,
            show b ++ SEP4 ++ pyJoin SEP4 (b2 :: rest)
              = b ++ (SEP4 ++ pyJoin SEP4 (b2 :: rest)) by
                simp [List.append_assoc],
            List.drop_append]
          have hBD : BANNER = 'D' :: str "etected text input format" := rfl
          interval_cases j
          · show BANNER.isPrefixOf
              ('\r' :: '\n' :: '\r' :: '\n' :: pyJoin SEP4 (b2 :: rest)) = false
            rw [hBD]; simp [List.isPrefixOf, hDR]
          · show BANNER.isPrefixOf
              ('\n' :: '\r' :: '\n' :: pyJoin SEP4 (b2 :: rest)) = false
            rw [hBD]; simp [List.isPrefixOf, hDN]
          · show BANNER.isPrefixOf
              ('\r' :: '\n' :: pyJoin SEP4 (b2 :: rest)) = false
            rw [hBD]; simp [List.isPrefixOf, hDR]
          · show BANNER.isPrefixOf
              ('\n' :: pyJoin SEP4 (b2 :: rest)) = false
            rw [hBD]; simp [List.isPrefixOf, hDN]
        · set m := i - (b.length + 4) with hmdef
          have hieq : i = (b ++ SEP4).length + m := by
            simp [SEP4]
            omega
          rw [hieq,
            show b ++ SEP4 ++ pyJoin SEP4 (b2 :: rest)
              = (b ++ SEP4) ++ pyJoin SEP4 (b2 :: rest) by
                simp [List.append_assoc],
            List.drop_append]
          exact ih (fun x hx => hwf x (List.mem_cons_of_mem b hx)) m

lemma pySplit_pyJoin_SEP4 (blocks : List (List Char)) (hne : blocks ≠ [])
    (hwf : ∀ b ∈ blocks, WFBlock b) :
    pySplit SEP4 (pyJoin SEP4 blocks) = blocks :=
  pySplit_join_generic (by decide) blocks hne
    (fun b hb => ⟨WF_noOcc_SEP4 (hwf b hb), WF_lastNot_SEP4 (hwf b hb)⟩)

/-! ### The batch pipeline on well-formed engine output -/

lemma cleanedResponse_of_blocks (blocks : List (List Char)) (hne : blocks ≠ [])
    (hwf : ∀ b ∈ blocks, WFBlock b) :
    cleanedResponse (pyJoin SEP4 blocks) = pyJoin SEP4 blocks := by
  obtain ⟨b, bs, rfl⟩ : ∃ b bs, blocks = b :: bs := by
    cases blocks with
    | nil => exact absurd rfl hne
    | cons b bs => exact ⟨b, bs, rfl⟩
  have hwfb : WFBlock b := hwf b (List.mem_cons_self b bs)
  have hhead : headOk (pyJoin SEP4 (b :: bs)) = true :=
    headOk_pyJoin SEP4 b bs hwfb.1 hwfb.2.2.2.1
  have hlast : lastOk (pyJoin SEP4 (b :: bs)) = true :=
    lastOk_pyJoin SEP4 (b :: bs) (by simp)
      (fun x hx => ⟨(hwf x hx).1, (hwf x hx).2.2.2.2⟩)
  have h1 : pyStrip (pyJoin SEP4 (b :: bs)) = pyJoin SEP4 (b :: bs) :=
    pyStrip_eq_self hhead hlast
  unfold cleanedResponse
  rw [h1, pySplit_of_noOcc _ (banner_noOcc (b :: bs) hwf)]
  show pyStrip (pyJoin SEP4 (b :: bs)) = _
  rw [h1]

lemma parseBlocks_ok :
    ∀ bs, (∀ b ∈ bs, (parse_raw_result b).isOk = true) →
      parseBlocks bs = Except.ok (bs.map parsedBlock) := by
  intro bs
  induction bs with
  | nil => intro _; rfl
  | cons b rest ih =>
    intro h
    have hb := h b (List.mem_cons_self b rest)
    cases hpr : parse_raw_result b with
    | error e => rw [hpr] at hb; exact Bool.noConfusion hb
    | ok ts =>
      have hpb : parsedBlock b = ts := by unfold parsedBlock; rw [hpr]
      show (match parse_raw_result b with
        | Except.error e => Except.error e
        | Except.ok ts =>
          match parseBlocks rest with
          | Except.error e => Except.error e
          | Except.ok tss => Except.ok (ts :: tss)) = _
      rw [hpr, ih (fun x hx => h x (List.mem_cons_of_mem b hx))]
      simp [hpb]

lemma parseBlocks_length :
    ∀ bs rss, parseBlocks bs = Except.ok rss → rss.length = bs.length := by
  intro bs
  induction bs with
  | nil =>
    intro rss h
    unfold parseBlocks at h
    injection h with h3
    rw [← h3]
    rfl
  | cons b rest ih =>
    intro rss h
    unfold parseBlocks at h
    cases hpr : parse_raw_result b with
    | error e => rw [hpr] at h; exact Except.noConfusion h
    | ok ts =>
      rw [hpr] at h
      cases hpb : parseBlocks rest with
      | error e => rw [hpb] at h; exact Except.noConfusion h
      | ok tss =>
        rw [hpb] at h
        injection h with h2
        rw [← h2]
        simp [ih tss hpb]

/-- The central decomposition: when the engine emits well-formed blocks
joined by `'\r\n\r\n'`, then the marker (and possibly more data), the
response side of `batch` is exactly the per-block parse. -/
lemma batchResult_of_blocks (blocks : List (List Char)) (tail : List Char)
    (hne : blocks ≠ []) (hwf : ∀ b ∈ blocks, WFBlock b) :
    batchResult (pyJoin SEP4 blocks ++ (MARKER ++ tail)) = parseBlocks blocks := by
  have hfind : pexpectBefore MARKER (pyJoin SEP4 blocks ++ (MARKER ++ tail))
      = some (pyJoin SEP4 blocks) :=
    pexpect_finds MARKER (by decide) (pyJoin SEP4 blocks) tail
      (marker_noEarly blocks hwf tail)
  unfold batchResult
  rw [hfind]
  show parseBlocks (pySplit SEP4 (cleanedResponse (pyJoin SEP4 blocks)))
    = parseBlocks blocks
  rw [cleanedResponse_of_blocks blocks hne hwf,
    pySplit_pyJoin_SEP4 blocks hne hwf]

/-! ### Per-line parsing -/

lemma parseLines_cons (l : List Char) (ls : List (List Char)) :
    parseLines (l :: ls) =
      match parseLine l with
      | Except.error e => Except.error e
      | Except.ok none => parseLines ls
      | Except.ok (some r) =>
        match parseLines ls with
        | Except.error e => Except.error e
        | Except.ok rs => Except.ok (r :: rs) := rfl

lemma parseLine_skip {l : List Char} (h : (pyStrip l).count '\t' ≠ 2) :
    parseLine l = Except.ok none := by
  unfold parseLine
  by_cases h0 : 0 < (pyStrip l).length
  · simp [h0, h]
  · simp [h0]

lemma parseLine_badfloat {l : List Char} (h2 : (pyStrip l).count '\t' = 2)
    (hf : pyFloat ((pySplit ['\t'] (pyStrip l)).getD 2 []) = none) :
    parseLine l = Except.error "ValueError" := by
  have h0 : 0 < (pyStrip l).length := by
    rcases Nat.eq_zero_or_pos (pyStrip l).length with hz | hp
    · exfalso
      have : pyStrip l = [] := List.eq_nil_of_length_eq_zero hz
      rw [this] at h2
      simp at h2
    · exact hp
  unfold parseLine
  simp only [List.getD_eq_getElem?_getD] at hf
  simp [h0, h2, hf]

lemma parseLine_eq_spec {l : List Char}
    (hv : (pyStrip l).count '\t' = 2 →
      (pyFloat ((pySplit ['\t'] (pyStrip l)).getD 2 [])).isSome = true) :
    parseLine l = Except.ok (specLineRecord l) := by
  unfold parseLine specLineRecord
  by_cases h0 : 0 < (pyStrip l).length
  · have hne : pyStrip l ≠ [] := List.ne_nil_of_length_pos h0
    by_cases h2 : (pyStrip l).count '\t' = 2
    · cases hf : pyFloat ((pySplit ['\t'] (pyStrip l)).getD 2 []) with
      | some conf =>
        simp only [List.getD_eq_getElem?_getD] at hf
        simp [h0, h2, hne, hf]
      | none =>
        exfalso
        have := hv h2
        rw [hf] at this
        simp at this
    · simp [h0, h2]
  · have hnil : pyStrip l = [] := by
      rcases Nat.eq_zero_or_pos (pyStrip l).length with hz | hp
      · exact List.eq_nil_of_length_eq_zero hz
      · exact absurd hp h0
    simp [h0, hnil]

lemma parseLines_eq_filterMap :
    ∀ lines, (∀ l ∈ lines, parseLine l = Except.ok (specLineRecord l)) →
      parseLines lines = Except.ok (lines.filterMap specLineRecord) := by
  intro lines
  induction lines with
  | nil => intro _; rfl
  | cons l ls ih =>
    intro h
    have hl := h l (List.mem_cons_self l ls)
    have hrec := ih (fun x hx => h x (List.mem_cons_of_mem l hx))
    rw [parseLines_cons, hl]
    cases hs : specLineRecord l with
    | none => simp [List.filterMap_cons, hs, hrec]
    | some r => simp [List.filterMap_cons, hs, hrec]

/-- Lines free of CR and LF survive a `'\r\n'` join/split round trip. -/
lemma pySplit_pyJoin_CRLF (lines : List (List Char)) (hne : lines ≠ [])
    (hchars : ∀ l ∈ lines, '\r' ∉ l ∧ '\n' ∉ l) :
    pySplit CRLF (pyJoin CRLF lines) = lines := by
  apply pySplit_join_generic (by decide) lines hne
  intro l hl
  constructor
  · intro i
    cases hB : CRLF.isPrefixOf (l.drop i) with
    | false => rfl
    | true =>
      exfalso
      obtain ⟨t, ht⟩ := isPre_iff.mp hB
      cases hd : l.drop i with
      | nil => rw [hd] at ht; simp [CRLF] at ht
      | cons d ds =>
        rw [hd] at ht
        have hdr : '\r' = d := by
          have := congrArg List.head? ht
          simpa [CRLF] using this
        have : '\r' ∈ l := by
          apply List.drop_subset i l
          rw [hd, ← hdr]
          exact List.mem_cons_self _ _
        exact absurd this (hchars l hl).1
  · intro c hc hmem
    have hcl : c ∈ l := List.mem_of_getLast?_eq_some hc
    have : c = '\r' ∨ c = '\n' := by simpa [CRLF] using hmem
    rcases this with h | h
    · rw [h] at hcl; exact absurd hcl (hchars l hl).1
    · rw [h] at hcl; exact absurd hcl (hchars l hl).2

/-! ### The request side: `replace`, framing, encoding -/

lemma pyJoin_cons_head (sep : List Char) (c : Char) (q : List Char)
    (qs : List (List Char)) :
    pyJoin sep ((c :: q) :: qs) = c :: pyJoin sep (q :: qs) := by
  cases qs with
  | nil => rfl
  | cons x xs => simp [pyJoin_cons, List.cons_append]

lemma pyJoin_nil_head (sep : List Char) (q : List Char) (qs : List (List Char)) :
    pyJoin sep ([] :: q :: qs) = sep ++ pyJoin sep (q :: qs) := by
  simp [pyJoin_cons]

/-- Python `replace` with single-character arguments is the
character-wise substitution. -/
lemma pyReplace_single (a b : Char) :
    ∀ s, pyReplace s [a] [b] = s.map (fun c => if c = a then b else c) := by
  intro s
  induction s with
  | nil => rfl
  | cons c rest ih =>
    unfold pyReplace pySplit at ih ⊢
    by_cases hca : c = a
    · subst hca
      have hcond : ((([c] : List Char).isPrefixOf (c :: rest)) && !([c] : List Char).isEmpty) = true := by
        simp [List.isPrefixOf]
      rw [pySplitGo_zero, if_pos hcond]
      have hlen : ([c] : List Char).length - 1 = 0 := rfl
      rw [hlen]
      cases hm : pySplitGo [c] rest 0 with
      | nil => exact absurd hm (pySplitGo_ne_nil _ _ _)
      | cons q qs =>
        rw [hm] at ih
        rw [pyJoin_nil_head, ih]
        simp
    · have hpre : (([a] : List Char).isPrefixOf (c :: rest)) = false := by
        cases hq : ([a] : List Char).isPrefixOf (c :: rest) with
        | false => rfl
        | true =>
          obtain ⟨t, ht⟩ := isPre_iff.mp hq
          have : a = c := by
            have := congrArg List.head? ht
            simpa using this
          exact absurd this.symm hca
      rw [pySplitGo_zero, if_neg (by rw [hpre]; simp)]
      cases hm : pySplitGo [a] rest 0 with
      | nil => exact absurd hm (pySplitGo_ne_nil _ _ _)
      | cons q qs =>
        rw [hm] at ih
        show pyJoin [b] ((c :: q) :: qs) = _
        rw [pyJoin_cons_head, ih]
        simp [hca]

lemma pyClean_eq_map (tw : List Char) : pyClean tw = tw.map cleanChar := by
  unfold pyClean
  rw [pyReplace_single, pyReplace_single, List.map_map]
  apply List.map_congr_left
  intro c _
  by_cases h1 : c = '\n'
  · subst h1; rfl
  · by_cases h2 : c = '\r'
    · subst h2; rfl
    · simp [Function.comp, cleanChar, h1, h2]

lemma utf8Encode_append (a b : List Char) :
    utf8Encode (a ++ b) = utf8Encode a ++ utf8Encode b := by
  unfold utf8Encode
  rw [List.map_append, List.flatten_append]

/-! ### Claim theorems -/

/-- Claim C1: for a batch of N non-empty CR/LF-free texts, when the
engine emits exactly one (well-formed, parseable) output block per
input text in input order, separated by `'\r\n\r\n'` and followed by
the completion marker, `batch` returns a result of length N whose
entries are the per-block parses in block (= input) order. -/
theorem c1_batch_length_and_order
    (tweets blocks : List (List Char)) (tail : List Char)
    (htw : tweets ≠ [])
    (htexts : ∀ tw ∈ tweets, tw ≠ [] ∧ '\r' ∉ tw ∧ '\n' ∉ tw)
    (hlen : blocks.length = tweets.length)
    (hwf : ∀ b ∈ blocks, WFBlock b)
    (hok : ∀ b ∈ blocks, (parse_raw_result b).isOk = true) :
    (batch tweets (pyJoin SEP4 blocks ++ (MARKER ++ tail))).2
        = Except.ok (blocks.map parsedBlock)
      ∧ (blocks.map parsedBlock).length = tweets.length := by
  have hne : blocks ≠ [] := by
    intro h
    rw [h] at hlen
    cases tweets with
    | nil => exact absurd rfl htw
    | cons a b => simp at hlen
  constructor
  · show batchResult (pyJoin SEP4 blocks ++ (MARKER ++ tail)) = _
    rw [batchResult_of_blocks blocks tail hne hwf, parseBlocks_ok blocks hok]
  · rw [List.length_map]
    exact hlen

/-- Concrete instance of C1: a two-text batch with two engine blocks. -/
theorem c1_witness :
    (batch [str "hello", str "world"]
        (pyJoin SEP4 [str "hello\t!\t0.9", str "world\tN\t0.5"] ++ (MARKER ++ []))).2
        = Except.ok ([str "hello\t!\t0.9", str "world\tN\t0.5"].map parsedBlock)
      ∧ ([str "hello\t!\t0.9", str "world\tN\t0.5"].map parsedBlock).length
        = [str "hello", str "world"].length :=
  c1_batch_length_and_order [str "hello", str "world"]
    [str "hello\t!\t0.9", str "world\tN\t0.5"] []
    (by decide) (by decide) (by decide) (by decide) (by decide)

/-- Claim C2: when no completion marker is observed in the data
received within the bound (timeout or read failure), `batch` returns
`ok []` — an empty result, no exception — for every batch, whatever
its size. -/
theorem c2_timeout_empty (stream : List Char)
    (h : pexpectBefore MARKER stream = none) (tweets : List (List Char)) :
    (batch tweets stream).2 = Except.ok [] := by
  show batchResult stream = _
  unfold batchResult
  rw [h]

/-- Concrete instance of C2: marker-free received data, 2-item batch. -/
theorem c2_witness :
    (batch [str "a", str "b"] (str "no marker here")).2 = Except.ok [] :=
  c2_timeout_empty (str "no marker here") (by decide) [str "a", str "b"]

/-- Claim C3: line 97 replaces every CR and LF of an input text by a
single space (character-wise), so the cleaned text has no CR/LF, and a
text containing `"a\nb"` yields a request line containing `"a b"`. -/
theorem c3_clean_replaces_crlf (tw : List Char) :
    pyClean tw = tw.map cleanChar
      ∧ (∀ c ∈ pyClean tw, c ≠ '\n' ∧ c ≠ '\r')
      ∧ (∀ u v, tw = u ++ str "a\nb" ++ v →
          pyClean tw = u.map cleanChar ++ str "a b" ++ v.map cleanChar) := by
  refine ⟨pyClean_eq_map tw, ?_, ?_⟩
  · intro c hc
    rw [pyClean_eq_map] at hc
    obtain ⟨d, _, hd⟩ := List.mem_map.mp hc
    rw [← hd]
    by_cases h1 : d = '\n'
    · subst h1; exact ⟨by decide, by decide⟩
    · by_cases h2 : d = '\r'
      · subst h2; exact ⟨by decide, by decide⟩
      · unfold cleanChar
        rw [if_neg h1, if_neg h2]
        exact ⟨h1, h2⟩
  · intro u v huv
    rw [pyClean_eq_map, huv, List.map_append, List.map_append]
    rw [show List.map cleanChar (str "a\nb") = str "a b" by decide]

/-- Concrete instance of C3: `"xa\nby"` cleans to contain `"a b"`. -/
theorem c3_witness :
    pyClean (str "xa\nby")
      = (str "x").map cleanChar ++ str "a b" ++ (str "y").map cleanChar :=
  (c3_clean_replaces_crlf (str "xa\nby")).2.2 (str "x") (str "y") (by decide)

/-- Claim C4: the bytes written for a batch are the UTF-8 encoding of
the cleaned texts joined by one newline, followed by two trailing
newline bytes; and these are the bytes `batch` writes. -/
theorem c4_wire_bytes (tweets : List (List Char)) :
    batchWrite tweets
        = utf8Encode (pyJoin (str "\n") (tweets.map pyClean) ++ str "\n\n")
      ∧ batchWrite tweets
        = utf8Encode (pyJoin (str "\n") (tweets.map pyClean)) ++ [10, 10]
      ∧ (∀ stream, (batch tweets stream).1 = batchWrite tweets) := by
  refine ⟨rfl, ?_, fun _ => rfl⟩
  show utf8Encode (batchMessage tweets ++ str "\n\n") = _
  rw [utf8Encode_append]
  rw [show utf8Encode (str "\n\n") = [10, 10] by decide]
  rfl

/-- Claim C5 as stated is false: a line with exactly two tabs and a
non-numeric third field makes `float(parts[2])` raise `ValueError`,
which `_parse_raw_result` does not catch — the line is not silently
skipped. -/
theorem c5_counterexample :
    parse_raw_result (str "a\tb\tnotanumber") = Except.error "ValueError" := by
  decide

/-- Claim C5, amended: a non-empty trimmed line whose tab count is not
two is silently skipped (no record, no error), but a line with exactly
two tabs and an unparseable third field makes the per-block parser
fail with `ValueError` instead of being skipped. -/
theorem c5_amended_skip_or_error :
    (∀ l : List Char, (pyStrip l).count '\t' ≠ 2 → parseLine l = Except.ok none)
      ∧ (∀ l : List Char, (pyStrip l).count '\t' = 2 →
          pyFloat ((pySplit ['\t'] (pyStrip l)).getD 2 []) = none →
          parseLine l = Except.error "ValueError")
      ∧ (∀ (l : List Char) (ls : List (List Char)), parseLine l = Except.ok none →
          parseLines (l :: ls) = parseLines ls) :=
  ⟨fun _ h => parseLine_skip h,
   fun _ h2 hf => parseLine_badfloat h2 hf,
   fun l ls h => by rw [parseLines_cons, h]⟩

/-- Concrete instances of the amended C5: a one-tab line is skipped, a
two-tab line with non-numeric third field raises. -/
theorem c5_witness :
    parseLine (str "one\ttab") = Except.ok none
      ∧ parseLine (str "a\tb\tz") = Except.error "ValueError" :=
  ⟨c5_amended_skip_or_error.1 (str "one\ttab") (by decide),
   c5_amended_skip_or_error.2.1 (str "a\tb\tz") (by decide) (by decide)⟩

/-- Claim C6: the per-block parser splits a block on `'\r\n'` and maps
each line to at most one record — exactly one `(tokens, tags,
confidence)` record for each non-empty trimmed line with exactly two
tabs (and parseable confidence), in line order, as described by
`specLineRecord`. -/
theorem c6_block_parse (lines : List (List Char)) (hne : lines ≠ [])
    (hchars : ∀ l ∈ lines, '\r' ∉ l ∧ '\n' ∉ l)
    (hval : ∀ l ∈ lines, (pyStrip l).count '\t' = 2 →
      (pyFloat ((pySplit ['\t'] (pyStrip l)).getD 2 [])).isSome = true) :
    parse_raw_result (pyJoin CRLF lines)
      = Except.ok (lines.filterMap specLineRecord) := by
  unfold parse_raw_result
  rw [show pySplit CRLF (pyJoin CRLF lines) = lines from
    pySplit_pyJoin_CRLF lines hne hchars]
  exact parseLines_eq_filterMap lines (fun l hl => parseLine_eq_spec (hval l hl))

/-- Concrete instance of C6: two valid lines around a skipped line. -/
theorem c6_witness :
    parse_raw_result (pyJoin CRLF [str "a\tN\t0.9", str "junk", str "b\t!\t0.5"])
      = Except.ok
          ([str "a\tN\t0.9", str "junk", str "b\t!\t0.5"].filterMap specLineRecord) :=
  c6_block_parse [str "a\tN\t0.9", str "junk", str "b\t!\t0.5"]
    (by decide) (by decide) (by decide)

/-- Claim C7: a well-formed response block with zero valid
tab-delimited lines still contributes its outer entry — present, with
an empty inner sequence — and the outer length is unchanged. -/
theorem c7_empty_block_entry (tweets : List (List Char))
    (blocks : List (List Char)) (tail : List Char) (i : Nat)
    (hwf : ∀ b ∈ blocks, WFBlock b)
    (hok : ∀ b ∈ blocks, (parse_raw_result b).isOk = true)
    (hi : i < blocks.length)
    (hz : parse_raw_result (blocks.getD i []) = Except.ok []) :
    (batch tweets (pyJoin SEP4 blocks ++ (MARKER ++ tail))).2
        = Except.ok (blocks.map parsedBlock)
      ∧ (blocks.map parsedBlock).length = blocks.length
      ∧ (blocks.map parsedBlock)[i]? = some ([] : List TaggedToken) := by
  have hne : blocks ≠ [] := by
    intro h
    rw [h] at hi
    simp at hi
  refine ⟨?_, by simp, ?_⟩
  · show batchResult (pyJoin SEP4 blocks ++ (MARKER ++ tail)) = _
    rw [batchResult_of_blocks blocks tail hne hwf, parseBlocks_ok blocks hok]
  · rw [List.getElem?_map, List.getElem?_eq_getElem hi]
    show some (parsedBlock blocks[i]) = _
    have hbi : blocks.getD i [] = blocks[i] := by
      simp [List.getD_eq_getElem?_getD, List.getElem?_eq_getElem hi]
    rw [hbi] at hz
    unfold parsedBlock
    rw [hz]

/-- Concrete instance of C7: second block has no valid line. -/
theorem c7_witness :
    (batch [str "hello", str "x"]
        (pyJoin SEP4 [str "hello\t!\t0.9", str "junk"] ++ (MARKER ++ []))).2
        = Except.ok ([str "hello\t!\t0.9", str "junk"].map parsedBlock)
      ∧ ([str "hello\t!\t0.9", str "junk"].map parsedBlock).length
        = [str "hello\t!\t0.9", str "junk"].length
      ∧ ([str "hello\t!\t0.9", str "junk"].map parsedBlock)[1]?
        = some ([] : List TaggedToken) :=
  c7_empty_block_entry [str "hello", str "x"] [str "hello\t!\t0.9", str "junk"]
    [] 1 (by decide) (by decide) (by decide) (by decide)

/-- Claim C8: on the success path, the pre-marker data is stripped,
decoded, banner-cut (`''.join(raw.split(banner))`), stripped again, and
only then split into blocks; every piece of the banner split is
banner-free, and banner-free responses pass through unchanged (modulo
the strip). -/
theorem c8_response_cleaning (tweets : List (List Char)) (stream before : List Char)
    (h : pexpectBefore MARKER stream = some before) :
    (batch tweets stream).2
        = parseBlocks (pySplit SEP4
            (pyStrip (pyJoin [] (pySplit BANNER (pyStrip before)))))
      ∧ (∀ piece ∈ pySplit BANNER (pyStrip before), ∀ i,
          BANNER.isPrefixOf (piece.drop i) = false)
      ∧ ((∀ i, BANNER.isPrefixOf ((pyStrip before).drop i) = false) →
          (batch tweets stream).2 = parseBlocks (pySplit SEP4 (pyStrip before))) := by
  have hbatch : (batch tweets stream).2
      = parseBlocks (pySplit SEP4 (cleanedResponse before)) := by
    show batchResult stream = _
    unfold batchResult
    rw [h]
  refine ⟨hbatch, ?_, ?_⟩
  · exact fun piece hp i =>
      pySplit_pieces_noOcc (by decide) (pyStrip before) 0 piece hp i
  · intro hno
    rw [hbatch]
    unfold cleanedResponse
    rw [pySplit_of_noOcc _ hno]
    show parseBlocks (pySplit SEP4 (pyStrip (pyStrip before))) = _
    rw [pyStrip_idem]

/-- Concrete instance of C8: a response that is exactly the banner plus
a payload. -/
theorem c8_witness :
    (batch [] (str "Detected text input formatok" ++ (MARKER ++ []))).2
      = parseBlocks (pySplit SEP4
          (pyStrip (pyJoin [] (pySplit BANNER
            (pyStrip (str "Detected text input formatok")))))) :=
  (c8_response_cleaning [] (str "Detected text input formatok" ++ (MARKER ++ []))
    (str "Detected text input formatok") (by decide)).1

/-- Claim C9: leaving a `with TweetTagger(...)` scope always invokes
`kill` — also when the body raised — because `__exit__` ignores the
exception triple. -/
theorem c9_exit_kills {α : Type} (p : TaggerProc)
    (body : TaggerProc → Except String α) :
    (withTagger p body).2 = kill p
      ∧ ((withTagger p body).2).alive = false
      ∧ (∀ e, body p = Except.error e → ((withTagger p body).2).alive = false) := by
  have h1 : (withTagger p body).2 = kill p := by
    unfold withTagger
    cases body p <;> rfl
  exact ⟨h1, by rw [h1]; rfl, fun e _ => by rw [h1]; rfl⟩

/-- Concrete instance of C9: a failing body still gets the process
killed on scope exit. -/
theorem c9_witness :
    ((withTagger ⟨true⟩
        (fun _ => (Except.error "ValueError" :
          Except String (List (List TaggedToken))))).2).alive = false :=
  (c9_exit_kills ⟨true⟩ _).2.2 "ValueError" rfl

/-- Claim C10: whenever `batch` returns a result list at all, that list
is empty exactly on the timeout path — splitting always yields at least
one block, so a successful parse has outer length at least 1. -/
theorem c10_empty_iff_timeout (tweets : List (List Char)) (stream : List Char)
    (rss : List (List TaggedToken))
    (h : (batch tweets stream).2 = Except.ok rss) :
    rss = [] ↔ pexpectBefore MARKER stream = none := by
  have hb : batchResult stream = Except.ok rss := h
  cases hm : pexpectBefore MARKER stream with
  | none =>
    unfold batchResult at hb
    rw [hm] at hb
    have hb2 : Except.ok ([] : List (List TaggedToken)) = Except.ok rss := hb
    injection hb2 with h2
    exact ⟨fun _ => rfl, fun _ => h2.symm⟩
  | some before =>
    unfold batchResult at hb
    rw [hm] at hb
    have hb2 : parseBlocks (pySplit SEP4 (cleanedResponse before))
        = Except.ok rss := hb
    have hlen := parseBlocks_length _ rss hb2
    have hsne := pySplit_ne_nil SEP4 (cleanedResponse before)
    constructor
    · intro hrss
      exfalso
      rw [hrss] at hlen
      cases hsp : pySplit SEP4 (cleanedResponse before) with
      | nil => exact absurd hsp hsne
      | cons x xs =>
        rw [hsp] at hlen
        simp at hlen
    · intro hcon
      exact Option.noConfusion hcon

/-- Concrete instance of C10: the only empty outer result comes from a
marker-free stream. -/
theorem c10_witness :
    (([] : List (List TaggedToken)) = []
      ↔ pexpectBefore MARKER (str "junk") = none) :=
  c10_empty_iff_timeout [] (str "junk") [] (by decide)

example : pySplit (str "ab") (str "xaby") = [str "x", str "y"] := by decide
example : pySplit (str "ab") (str "abab") = [[], [], []] := by decide
example : pySplit SEP4 (str "a\r\n\r\nb") = [str "a", str "b"] := by decide
example : pyStrip (str " \t a b \r\n") = str "a b" := by decide
example : pyClean (str "a\nb\rc") = str "a b c" := by decide
example : pyFloat (str "0.98") = some (.finite 98 100) := by decide
example : pyFloat (str " -1.5e2 ") = some (.finite (-1500) 10) := by decide
example : pyFloat (str "1e-2") = some (.finite 1 100) := by decide
example : pyFloat (str "Inf") = some (.inf false) := by decide
example : pyFloat (str "abc") = none := by decide
example : pyFloat (str "") = none := by decide
example : pyFloat (str "5.") = some (.finite 5 1) := by decide
example : pyFloat (str ".5") = some (.finite 5 10) := by decide
example : pyFloat (str "1e") = none := by decide
example : parse_raw_result (str "a\tN\t0.9") =
    Except.ok [(str "a", str "N", .finite 9 10)] := by decide
example : parse_raw_result (str "a\tb") = Except.ok [] := by decide
example : parse_raw_result (str "a\tb\tz") = Except.error "ValueError" := by decide
example : pexpectBefore MARKER (str "x" ++ MARKER ++ str "y") = some (str "x") := by
  decide
example : pexpectBefore MARKER (str "xy") = none := by decide
example : batchResult (str "a\tN\t0.5\r\n\r\nb\t!\t0.25" ++ MARKER) =
    Except.ok [[(str "a", str "N", .finite 5 10)], [(str "b", str "!", .finite 25 100)]] := by
  decide

end ArkTweet
